import Mathlib

/-!
Verification of the `delta` diff-highlighting filter (src/main.rs).

The per-line pipeline of `delta()` is embedded shallowly:
lines are `List Char`; the external collaborators (syntect grammar
lookup and highlighter, the `parse` module extension extractor) are
parameters gathered in `Env`; the output written for a line is a list
of semantic tokens (`Tok`), each of which renders to the exact byte
sequence the Rust code writes.
-/

namespace Delta

/-- `syntect::highlighting::Color` as used in main.rs. -/
structure Color where
  r : Nat
  g : Nat
  b : Nat
  a : Nat
deriving DecidableEq, Repr

/-- The hard-coded added-line background tint (main.rs lines 16-21). -/
def GREEN : Color := { r := 0x01, g := 0x18, b := 0x00, a := 0x00 }

/-- The hard-coded removed-line background tint (main.rs lines 23-28). -/
def RED : Color := { r := 0x24, g := 0x00, b := 0x01, a := 0x00 }

/-- The command-line options structure `Opt` (main.rs lines 30-48). -/
structure Opt where
  light : Bool
  dark : Bool
  width : Option Nat
deriving DecidableEq, Repr

/-- The line-classification state `State` (main.rs lines 50-56). -/
inductive State where
  | Commit
  | DiffMeta
  | DiffHunk
  | Unknown
deriving DecidableEq, Repr

/-- A `Style` carries the foreground color used when painting a span
(`style.foreground` is the only field main.rs reads). -/
structure Style where
  foreground : Color
deriving DecidableEq, Repr

/-- A token of output: either one of the three escape sequences the
program writes, or literal visible text. Rendering a token (`Tok.render`)
produces the exact characters pushed onto the output buffer. -/
inductive Tok where
  | bg (c : Color)
  | fg (c : Color)
  | reset
  | txt (s : List Char)
deriving DecidableEq, Repr

/-- UTF-8 byte length of a line, matching Rust `str::len`. -/
def utf8Len (l : List Char) : Nat := (l.map Char.utf8Size).sum

def escChar : Char := Char.ofNat 27

/-- Decimal rendering of a color component. -/
def natDecimal (n : Nat) : List Char := (Nat.repr n).data

/-- The exact characters a token contributes to the output line
(cf. the `write!` format strings in `paint`, main.rs lines 150-183). -/
def Tok.render : Tok → List Char
  | Tok.bg c =>
      escChar :: ("[48;2;".data ++ natDecimal c.r ++ [';'] ++ natDecimal c.g
        ++ [';'] ++ natDecimal c.b ++ ['m'])
  | Tok.fg c =>
      escChar :: ("[38;2;".data ++ natDecimal c.r ++ [';'] ++ natDecimal c.g
        ++ [';'] ++ natDecimal c.b ++ ['m'])
  | Tok.reset => escChar :: "[0m".data
  | Tok.txt s => s

/-- The byte-for-byte output line a token list denotes. -/
def renderLine (ts : List Tok) : List Char := (ts.map Tok.render).flatten

/-- The visible (non-escape) characters of a token. -/
def Tok.visible : Tok → List Char
  | Tok.txt s => s
  | _ => []

/-- The visible (non-escape) characters of an output line. -/
def visibleChars (ts : List Tok) : List Char := (ts.map Tok.visible).flatten

/-- Modelled from the spec: the external `console::strip_ansi_codes`
collaborator ("stripping pre-existing color codes"): drop every
ESC `[` ... `m` color-escape segment, keep everything else.
Helper: drop characters up to and including the terminating `m`. -/
def dropToM : List Char → List Char
  | [] => []
  | c :: rest => if c = 'm' then rest else dropToM rest

/-- Fuel-indexed worker for `stripAnsiCodes`; the fuel bounds the number
of characters consumed and each step consumes at least one. -/
def stripGo : Nat → List Char → List Char
  | _, [] => []
  | 0, l => l
  | Nat.succ n, c :: rest =>
      if c = escChar then
        match rest with
        | '[' :: rest2 => stripGo n (dropToM rest2)
        | _ => c :: stripGo n rest
      else c :: stripGo n rest

/-- Modelled from the spec: ANSI color-escape stripping of incoming text. -/
def stripAnsiCodes (l : List Char) : List Char := stripGo l.length l

/-- The external collaborators of the core (syntect and the `parse`
module): grammar lookup by extension, extension extraction from a
`diff --` line, and the highlighter producing (style, substring) spans. -/
structure Env (Γ : Type) where
  findSyntaxByExtension : List Char → Option Γ
  getFileExtensionFromDiffLine : List Char → Option (List Char)
  highlight : Γ → List Char → List (Style × List Char)

/-- Grammar resolution on a `diff --` line (main.rs lines 89-92). -/
def resolveSyntax {Γ : Type} (env : Env Γ) (line : List Char) : Option Γ :=
  match env.getFileExtensionFromDiffLine line with
  | some extension => env.findSyntaxByExtension extension
  | none => none

/-- Whether a hunk line carries a diff marker (main.rs lines 101-107):
its first character is `+` or `-`. -/
def hasMarker (l : List Char) : Bool :=
  l.head? = some '+' || l.head? = some '-'

/-- The background tint chosen from the first character
(main.rs lines 102-106). -/
def tintOf (l : List Char) : Option Color :=
  if l.head? = some '+' then some GREEN
  else if l.head? = some '-' then some RED
  else none

/-- Marker stripping (main.rs line 108): `line[1..]` when the first
character is `+` or `-`. Since that character is one UTF-8 byte, the
byte slice at index 1 equals dropping one character. -/
def stripMarker (l : List Char) : List Char :=
  if hasMarker l then l.drop 1 else l

/-- The number of pad spaces appended (main.rs lines 111-113):
`100 - line.len()` when the byte length is below 100, else none. -/
def padCount (l : List Char) : Nat :=
  if utf8Len l < 100 then 100 - utf8Len l else 0

/-- Right-padding to 100 bytes (main.rs lines 111-113). -/
def padLine (l : List Char) : List Char :=
  if utf8Len l < 100 then l ++ List.replicate (100 - utf8Len l) ' ' else l

/-- `paint` (main.rs lines 143-184): optional background escape
(plus reset when `resetColor`), then either a foreground escape
immediately followed by the text, or the bare text. -/
def paint (text : List Char) (foregroundColor : Option Color)
    (backgroundColor : Option Color) (resetColor : Bool) : List Tok :=
  (match backgroundColor with
   | some c => [Tok.bg c] ++ (if resetColor then [Tok.reset] else [])
   | none => []) ++
  (match foregroundColor with
   | some c => [Tok.fg c, Tok.txt text] ++ (if resetColor then [Tok.reset] else [])
   | none => [Tok.txt text])

/-- `paint_ranges` (main.rs lines 131-140): paint every span with its
foreground and the shared background, no per-span reset, then one
trailing reset. -/
def paintRanges (rs : List (Style × List Char)) (backgroundColor : Option Color) :
    List Tok :=
  (rs.map fun r => paint r.2 (some r.1.foreground) backgroundColor false).flatten
    ++ [Tok.reset]

/-- The hunk-content compositing branch (main.rs lines 100-115), for a
resolved grammar `g`: choose the tint from the first character, strip
the marker and push a space onto the output buffer in its place, pad to
100 bytes, highlight, and paint the spans. -/
def compositeHunkLine {Γ : Type} (env : Env Γ) (g : Γ) (line : List Char) :
    List Tok :=
  (if hasMarker line then [Tok.txt [' ']] else []) ++
    paintRanges (env.highlight g (padLine (stripMarker line)))
      (tintOf line)

/-- The result of processing one input line: the updated state and
grammar, the output line written for it, and `did_emit_line`. -/
structure StepResult (Γ : Type) where
  state : State
  syn : Option Γ
  out : List Tok
  composited : Bool
deriving Repr

/-- The loop body of `delta` (main.rs lines 83-125): strip ANSI codes,
classify by line prefixes, re-resolve the grammar on `diff --` lines,
composite hunk-content lines when a grammar is resolved, and otherwise
write the raw (un-stripped) input line. -/
def stepLine {Γ : Type} (env : Env Γ) (st : State) (syn : Option Γ)
    (rawLine : List Char) : StepResult Γ :=
  let line := stripAnsiCodes rawLine
  if List.isPrefixOf "diff --".data line then
    { state := State.DiffMeta, syn := resolveSyntax env line,
      out := [Tok.txt rawLine], composited := false }
  else if List.isPrefixOf "commit".data line then
    { state := State.Commit, syn := syn, out := [Tok.txt rawLine],
      composited := false }
  else if List.isPrefixOf "@@".data line then
    { state := State.DiffHunk, syn := syn, out := [Tok.txt rawLine],
      composited := false }
  else if st = State.DiffHunk then
    match syn with
    | some g =>
        { state := st, syn := syn, out := compositeHunkLine env g line,
          composited := true }
    | none =>
        { state := st, syn := syn, out := [Tok.txt rawLine], composited := false }
  else
    { state := st, syn := syn, out := [Tok.txt rawLine], composited := false }

/-- The initial classification state (main.rs line 76). -/
def initState : State := State.Unknown

/-- The driver loop (main.rs lines 83-126): fold `stepLine` over the
input lines, collecting the one output line written per input line. -/
def runDelta {Γ : Type} (env : Env Γ) : List (List Char) → State → Option Γ →
    List (List Tok)
  | [], _, _ => []
  | raw :: rest, st, syn =>
      let r := stepLine env st syn raw
      r.out :: runDelta env rest r.state r.syn

/-- `delta()` (main.rs lines 70-128): the options are parsed into `opt`,
which the rest of the function never reads; processing starts in
`initState` with no resolved grammar. -/
def deltaRun {Γ : Type} (opt : Opt) (env : Env Γ) (input : List (List Char)) :
    List (List Tok) :=
  runDelta env input initState none

/-- The error kinds `main` distinguishes (main.rs lines 58-68). -/
inductive DeltaErrorKind where
  | brokenPipe
  | otherErr
deriving DecidableEq, Repr

/-- What `main` does with the run's result: the process exit code and
whether the error description was printed to the diagnostic stream. -/
structure MainOutcome where
  exitCode : Nat
  stderrMsg : Bool
deriving DecidableEq, Repr

/-- `main` (main.rs lines 58-68): broken pipe exits 0 silently; any
other error is printed with `eprintln!` and then `main` returns
normally, so the process still exits 0; success exits 0. -/
def mainModel : Except DeltaErrorKind Unit → MainOutcome
  | Except.error DeltaErrorKind.brokenPipe => { exitCode := 0, stderrMsg := false }
  | Except.error DeltaErrorKind.otherErr => { exitCode := 0, stderrMsg := true }
  | Except.ok _ => { exitCode := 0, stderrMsg := false }

/-- Concatenation of the span texts of a highlighter result. -/
def joinTexts (rs : List (Style × List Char)) : List Char :=
  (rs.map fun r => r.2).flatten

/-- Background-coverage interpreter: walk an output-token list tracking
the current background color (background escapes set it, the reset
clears it, foreground escapes leave it); `true` iff every nonempty
visible text token is emitted while the current background is `tint`. -/
def coveredWalk (tint : Color) : Option Color → List Tok → Bool
  | _, [] => true
  | _, Tok.bg c :: rest => coveredWalk tint (some c) rest
  | b, Tok.fg _ :: rest => coveredWalk tint b rest
  | _, Tok.reset :: rest => coveredWalk tint none rest
  | b, Tok.txt s :: rest =>
      (s.isEmpty || b = some tint) && coveredWalk tint b rest

/-- Checked byte-oriented slice: drop `i` UTF-8 bytes from the front of
a line, or `none` when `i` is not a character boundary (the case where
Rust `line[i..]` panics). -/
def byteDrop? : Nat → List Char → Option (List Char)
  | 0, l => some l
  | _ + 1, [] => none
  | i + 1, c :: rest =>
      if c.utf8Size ≤ i + 1 then byteDrop? (i + 1 - c.utf8Size) rest else none
termination_by i _ => i
decreasing_by
  have := Char.utf8Size_pos c
  omega

/-- A line all of whose characters are one UTF-8 byte (ASCII). -/
def isAsciiLine (l : List Char) : Bool := l.all fun c => c.utf8Size == 1

/-- A trivial environment with no grammars and an empty highlighter,
used to instantiate concrete runs. -/
def envUnit : Env Unit :=
  { findSyntaxByExtension := fun _ => none,
    getFileExtensionFromDiffLine := fun _ => none,
    highlight := fun _ _ => [] }

/-- An environment whose highlighter returns a single span covering the
whole line (the minimal well-formed highlighter), used to instantiate
concrete runs. -/
def envId : Env Unit :=
  { findSyntaxByExtension := fun _ => none,
    getFileExtensionFromDiffLine := fun _ => none,
    highlight := fun _ s =>
      [({ foreground := { r := 0, g := 0, b := 0, a := 0 } }, s)] }

theorem utf8Len_append (a b : List Char) :
    utf8Len (a ++ b) = utf8Len a + utf8Len b := by
  simp [utf8Len]

theorem utf8Len_replicate (n : Nat) (c : Char) :
    utf8Len (List.replicate n c) = n * c.utf8Size := by
  simp [utf8Len, List.map_replicate, List.sum_replicate, smul_eq_mul]

theorem padLine_eq (l : List Char) :
    padLine l = l ++ List.replicate (padCount l) ' ' := by
  unfold padLine padCount
  split <;> simp

theorem isAsciiLine_utf8Len : ∀ l : List Char, isAsciiLine l = true →
    utf8Len l = l.length
  | [], _ => rfl
  | c :: t, h => by
      simp only [isAsciiLine, List.all_cons, Bool.and_eq_true, beq_iff_eq,
        List.all_eq_true] at h
      have ht := isAsciiLine_utf8Len t (by
        simp only [isAsciiLine, List.all_eq_true, beq_iff_eq]
        exact h.2)
      simp only [utf8Len, List.map_cons, List.sum_cons, List.length_cons] at ht ⊢
      omega

theorem visibleChars_append (a b : List Tok) :
    visibleChars (a ++ b) = visibleChars a ++ visibleChars b := by
  simp [visibleChars]

theorem visibleChars_paint_noreset (t : List Char) (f : Color) (b : Option Color) :
    visibleChars (paint t (some f) b false) = t := by
  cases b <;> simp [paint, visibleChars, Tok.visible]

theorem visibleChars_paintRanges (rs : List (Style × List Char)) (b : Option Color) :
    visibleChars (paintRanges rs b) = joinTexts rs := by
  induction rs with
  | nil => simp [paintRanges, joinTexts, visibleChars, Tok.visible]
  | cons r rest ih =>
      have hih : visibleChars ((rest.map fun r =>
          paint r.2 (some r.1.foreground) b false).flatten ++ [Tok.reset]) =
          joinTexts rest := ih
      simp only [paintRanges, joinTexts, List.map_cons, List.flatten_cons,
        List.append_assoc] at hih ⊢
      rw [visibleChars_append, visibleChars_paint_noreset, hih]

theorem coveredWalk_paintRanges (t : Color) (rs : List (Style × List Char)) :
    ∀ b0 : Option Color, coveredWalk t b0 (paintRanges rs (some t)) = true := by
  induction rs with
  | nil => intro b0; simp [paintRanges, coveredWalk]
  | cons r rest ih =>
      intro b0
      have h : paintRanges (r :: rest) (some t) =
          Tok.bg t :: Tok.fg r.1.foreground :: Tok.txt r.2 ::
            paintRanges rest (some t) := by
        simp [paintRanges, paint]
      rw [h]
      simp only [coveredWalk]
      rw [ih (some t)]
      simp

theorem runDelta_length {Γ : Type} (env : Env Γ) :
    ∀ (input : List (List Char)) (st : State) (syn : Option Γ),
      (runDelta env input st syn).length = input.length
  | [], _, _ => rfl
  | raw :: rest, st, syn => by
      simp only [runDelta, List.length_cons]
      rw [runDelta_length env rest]

/-- C8: the driver writes exactly one output line per input line, in
input order, for every input stream, every starting state and grammar,
and every option set. -/
theorem c8_line_count {Γ : Type} (opt : Opt) (env : Env Γ)
    (input : List (List Char)) (st : State) (syn : Option Γ) :
    (deltaRun opt env input).length = input.length ∧
    (runDelta env input st syn).length = input.length :=
  ⟨runDelta_length env input initState none, runDelta_length env input st syn⟩

/-- C4 counterexample: on an I/O error other than a broken pipe, `main`
prints the error description but falls through and the process exits
with code 0, refuting the claimed nonzero exit. -/
theorem c4_counterexample :
    (mainModel (Except.error DeltaErrorKind.otherErr)).exitCode = 0 ∧
    (mainModel (Except.error DeltaErrorKind.otherErr)).stderrMsg = true := by
  constructor <;> rfl

/-- C4 (amended): the process exits 0 on clean end-of-input, on a broken
output pipe (silently), and also on every other I/O error; only a
non-broken-pipe error writes the error description to the diagnostic
stream. -/
theorem c4_exit_codes_amended (r : Except DeltaErrorKind Unit) :
    (mainModel r).exitCode = 0 ∧
    ((mainModel r).stderrMsg = true ↔ r = Except.error DeltaErrorKind.otherErr) := by
  cases r with
  | ok u => exact ⟨rfl, by simp [mainModel]⟩
  | error e => cases e <;> simp [mainModel]

/-- C2: the run is entirely independent of the parsed options — the
`width` value (`-w`, `--width`) is never consulted — and the padding target is the
hard-coded 100: a three-character line pads to exactly 100 columns
regardless of any width option. -/
theorem c2_width_ignored :
    (∀ (Γ : Type) (o1 o2 : Opt) (env : Env Γ) (input : List (List Char)),
        deltaRun o1 env input = deltaRun o2 env input) ∧
    (padLine ['a', 'b', 'c']).length = 100 ∧
    utf8Len (padLine ['a', 'b', 'c']) = 100 :=
  ⟨fun _ _ _ _ _ => rfl, by decide, by decide⟩

/-- C9: in `DiffHunk` state with no resolved grammar, a hunk-content
line (one matching none of the classifying prefixes) is not composited
and is emitted byte-for-byte as the raw input line, marker included. -/
theorem c9_no_grammar_fallback {Γ : Type} (env : Env Γ) (st : State)
    (syn : Option Γ) (raw : List Char)
    (hst : st = State.DiffHunk) (hsyn : syn = none)
    (h1 : List.isPrefixOf "diff --".data (stripAnsiCodes raw) = false)
    (h2 : List.isPrefixOf "commit".data (stripAnsiCodes raw) = false)
    (h3 : List.isPrefixOf "@@".data (stripAnsiCodes raw) = false) :
    (stepLine env st syn raw).out = [Tok.txt raw] ∧
    (stepLine env st syn raw).composited = false ∧
    renderLine (stepLine env st syn raw).out = raw := by
  subst hst
  subst hsyn
  simp [stepLine, h1, h2, h3, renderLine, Tok.render]

/-- Witness for C9 at the concrete hunk line `+x` with no grammar. -/
theorem c9_no_grammar_fallback_witness :
    (stepLine envUnit State.DiffHunk none "+x".data).out = [Tok.txt "+x".data] ∧
    (stepLine envUnit State.DiffHunk none "+x".data).composited = false ∧
    renderLine (stepLine envUnit State.DiffHunk none "+x".data).out = "+x".data :=
  c9_no_grammar_fallback envUnit State.DiffHunk none "+x".data rfl rfl
    (by decide) (by decide) (by decide)

/-- C10: the per-line compositing arithmetic is panic-free: when the
first character is a one-byte `+` or `-` marker, the byte slice at
index 1 is on a character boundary and equals dropping one character;
and under the guard `utf8Len s < 100` the pad-count subtraction does
not underflow, so the padded line is exactly 100 bytes. -/
theorem c10_no_panic (l : List Char) (c : Char) (s : List Char)
    (hc : l.head? = some c) (hpm : c = '+' ∨ c = '-')
    (hlen : utf8Len s < 100) :
    byteDrop? 1 l = some (stripMarker l) ∧
    stripMarker l = l.drop 1 ∧
    (100 - utf8Len s) + utf8Len s = 100 ∧
    utf8Len (padLine s) = 100 := by
  cases l with
  | nil => simp at hc
  | cons a t =>
      simp only [List.head?_cons, Option.some.injEq] at hc
      subst hc
      have hsize : a.utf8Size = 1 := by
        rcases hpm with h | h <;> subst h <;> decide
      have hmk : hasMarker (a :: t) = true := by
        rcases hpm with h | h <;> subst h <;> simp [hasMarker]
      have hstrip : stripMarker (a :: t) = t := by
        simp [stripMarker, hmk]
      refine ⟨?_, by simp [hstrip], by omega, ?_⟩
      · rw [hstrip]
        unfold byteDrop?
        rw [hsize]
        simp [byteDrop?]
      · rw [padLine_eq, utf8Len_append, utf8Len_replicate, padCount]
        rw [if_pos hlen]
        have hspace : (' ' : Char).utf8Size = 1 := by decide
        rw [hspace]
        omega

/-- C6: the classifier is a first-match-wins transition function on one
state variable initialized to `Unknown`: `diff --` sets `DiffMeta` and
re-resolves the grammar from the line, else `commit` sets `Commit`,
else `@@` sets `DiffHunk`, else the state and grammar are unchanged;
and the line is composited as hunk content exactly when no prefix
matched, the state was already `DiffHunk`, and a grammar is resolved.
Entering a state fully replaces the previous one (the new state is a
function of the line and the old single state — no stack). -/
theorem c6_classifier {Γ : Type} (env : Env Γ) (st : State) (syn : Option Γ)
    (raw : List Char) :
    initState = State.Unknown ∧
    (stepLine env st syn raw).state =
      (if List.isPrefixOf "diff --".data (stripAnsiCodes raw) then State.DiffMeta
       else if List.isPrefixOf "commit".data (stripAnsiCodes raw) then State.Commit
       else if List.isPrefixOf "@@".data (stripAnsiCodes raw) then State.DiffHunk
       else st) ∧
    (stepLine env st syn raw).syn =
      (if List.isPrefixOf "diff --".data (stripAnsiCodes raw) then
        resolveSyntax env (stripAnsiCodes raw)
       else syn) ∧
    ((stepLine env st syn raw).composited = true ↔
      (List.isPrefixOf "diff --".data (stripAnsiCodes raw) = false ∧
       List.isPrefixOf "commit".data (stripAnsiCodes raw) = false ∧
       List.isPrefixOf "@@".data (stripAnsiCodes raw) = false ∧
       st = State.DiffHunk ∧ ∃ g, syn = some g)) := by
  refine ⟨rfl, ?_⟩
  by_cases h1 : List.isPrefixOf "diff --".data (stripAnsiCodes raw)
  · simp [stepLine, h1]
  · by_cases h2 : List.isPrefixOf "commit".data (stripAnsiCodes raw)
    · simp [stepLine, h1, h2]
    · by_cases h3 : List.isPrefixOf "@@".data (stripAnsiCodes raw)
      · simp [stepLine, h1, h2, h3]
      · by_cases h4 : st = State.DiffHunk
        · cases syn with
          | none => simp [stepLine, h1, h2, h3, h4]
          | some g => simp [stepLine, h1, h2, h3, h4]
        · cases syn with
          | none => simp [stepLine, h1, h2, h3, h4]
          | some g => simp [stepLine, h1, h2, h3, h4]

/-- C7: a composited hunk line starting with `+` gets the fixed GREEN
background tint, a line starting with `-` the fixed RED tint; in both
cases exactly one leading character is stripped (so the working copy is
exactly one shorter) and exactly one space is substituted in its place
at the front of the rendering buffer; any other first character gets no
tint and no stripping. -/
theorem c7_marker_handling {Γ : Type} (env : Env Γ) (g : Γ) (line : List Char)
    (c : Char) (hc : line.head? = some c) :
    (c = '+' →
      tintOf line = some GREEN ∧
      stripMarker line = line.drop 1 ∧
      (stripMarker line).length + 1 = line.length ∧
      compositeHunkLine env g line =
        Tok.txt [' '] ::
          paintRanges (env.highlight g (padLine (line.drop 1))) (some GREEN)) ∧
    (c = '-' →
      tintOf line = some RED ∧
      stripMarker line = line.drop 1 ∧
      (stripMarker line).length + 1 = line.length ∧
      compositeHunkLine env g line =
        Tok.txt [' '] ::
          paintRanges (env.highlight g (padLine (line.drop 1))) (some RED)) ∧
    (c ≠ '+' → c ≠ '-' →
      tintOf line = none ∧
      stripMarker line = line ∧
      compositeHunkLine env g line =
        paintRanges (env.highlight g (padLine line)) none) := by
  cases line with
  | nil => simp at hc
  | cons a t =>
      simp only [List.head?_cons, Option.some.injEq] at hc
      subst hc
      refine ⟨?_, ?_, ?_⟩
      · intro h
        subst h
        simp [tintOf, stripMarker, hasMarker, compositeHunkLine]
      · intro h
        subst h
        simp [tintOf, stripMarker, hasMarker, compositeHunkLine]
      · intro hp hm
        simp [tintOf, stripMarker, hasMarker, compositeHunkLine, hp, hm]

/-- Witness for C7 at the concrete hunk lines `+a`, `-a` and ` a`. -/
theorem c7_marker_handling_witness :
    (tintOf "+a".data = some GREEN ∧
     stripMarker "+a".data = "+a".data.drop 1 ∧
     (stripMarker "+a".data).length + 1 = "+a".data.length ∧
     compositeHunkLine envId () "+a".data =
       Tok.txt [' '] ::
         paintRanges (envId.highlight () (padLine ("+a".data.drop 1)))
           (some GREEN)) ∧
    (tintOf "-a".data = some RED ∧
     stripMarker "-a".data = "-a".data.drop 1 ∧
     (stripMarker "-a".data).length + 1 = "-a".data.length ∧
     compositeHunkLine envId () "-a".data =
       Tok.txt [' '] ::
         paintRanges (envId.highlight () (padLine ("-a".data.drop 1)))
           (some RED)) ∧
    (tintOf " a".data = none ∧
     stripMarker " a".data = " a".data ∧
     compositeHunkLine envId () " a".data =
       paintRanges (envId.highlight () (padLine " a".data)) none) :=
  ⟨(c7_marker_handling envId () "+a".data '+' rfl).1 rfl,
   (c7_marker_handling envId () "-a".data '-' rfl).2.1 rfl,
   (c7_marker_handling envId () " a".data ' ' rfl).2.2 (by decide) (by decide)⟩

/-- C5 counterexample: an input line carrying an ANSI color escape, in
`Unknown` state, is emitted as the raw un-stripped input line, not as
its ANSI-stripped form — the stripped copy is used only for
classification and compositing. -/
theorem c5_counterexample :
    renderLine (stepLine envUnit State.Unknown none
        (escChar :: "[31mred".data)).out ≠
      stripAnsiCodes (escChar :: "[31mred".data) := by
  decide

/-- C5 (amended): every input line whose ANSI-stripped form starts with
none of `diff --`, `commit`, `@@`, processed outside `DiffHunk` state,
is emitted byte-for-byte identical to the ORIGINAL raw input line
(pre-existing ANSI codes intact); stripping affects only the copy used
for classification and compositing. -/
theorem c5_passthrough_amended {Γ : Type} (env : Env Γ) (st : State)
    (syn : Option Γ) (raw : List Char)
    (h1 : List.isPrefixOf "diff --".data (stripAnsiCodes raw) = false)
    (h2 : List.isPrefixOf "commit".data (stripAnsiCodes raw) = false)
    (h3 : List.isPrefixOf "@@".data (stripAnsiCodes raw) = false)
    (hst : st ≠ State.DiffHunk) :
    (stepLine env st syn raw).out = [Tok.txt raw] ∧
    renderLine (stepLine env st syn raw).out = raw ∧
    (stepLine env st syn raw).composited = false := by
  simp [stepLine, h1, h2, h3, hst, renderLine, Tok.render]

/-- Witness for C5 (amended) at the concrete line `hello`. -/
theorem c5_passthrough_amended_witness :
    (stepLine envUnit State.Unknown none "hello".data).out =
      [Tok.txt "hello".data] ∧
    renderLine (stepLine envUnit State.Unknown none "hello".data).out =
      "hello".data ∧
    (stepLine envUnit State.Unknown none "hello".data).composited = false :=
  c5_passthrough_amended envUnit State.Unknown none "hello".data
    (by decide) (by decide) (by decide) (by decide)

/-- C1 counterexample: for the composited hunk line `+ab` the emitted
line's visible character count is 101, not
`max(original_stripped_length, 100) = 100`: the space substituted for
the stripped marker is pushed onto the output buffer in addition to the
100-column padded line. -/
theorem c1_counterexample :
    ¬ ((visibleChars (stepLine envId State.DiffHunk (some ())
          "+ab".data).out).length =
        max (stripMarker (stripAnsiCodes "+ab".data)).length 100) := by
  decide

/-- C1 (amended): for a composited hunk line, the visible characters of
the emitted line are exactly the substituted marker space (when a
marker was stripped) followed by the stripped line and its padding, so
the visible count is (1 if a marker was stripped, else 0) + the
stripped character count + the pad count (100 minus the stripped UTF-8
byte length, when that byte length is below 100, else 0); for an
all-ASCII stripped line this is the marker contribution plus
`max(original_stripped_length, 100)`. The line is never truncated: the
stripped text appears in full. -/
theorem c1_visible_count_amended {Γ : Type} (env : Env Γ) (st : State)
    (syn : Option Γ) (g : Γ) (raw : List Char)
    (hst : st = State.DiffHunk) (hsyn : syn = some g)
    (h1 : List.isPrefixOf "diff --".data (stripAnsiCodes raw) = false)
    (h2 : List.isPrefixOf "commit".data (stripAnsiCodes raw) = false)
    (h3 : List.isPrefixOf "@@".data (stripAnsiCodes raw) = false)
    (hcover : joinTexts (env.highlight g
        (padLine (stripMarker (stripAnsiCodes raw)))) =
      padLine (stripMarker (stripAnsiCodes raw))) :
    visibleChars (stepLine env st syn raw).out =
      (if hasMarker (stripAnsiCodes raw) then [' '] else []) ++
        (stripMarker (stripAnsiCodes raw) ++
          List.replicate (padCount (stripMarker (stripAnsiCodes raw))) ' ') ∧
    (visibleChars (stepLine env st syn raw).out).length =
      (if hasMarker (stripAnsiCodes raw) then 1 else 0) +
        (stripMarker (stripAnsiCodes raw)).length +
        padCount (stripMarker (stripAnsiCodes raw)) ∧
    (isAsciiLine (stripMarker (stripAnsiCodes raw)) = true →
      (visibleChars (stepLine env st syn raw).out).length =
        (if hasMarker (stripAnsiCodes raw) then 1 else 0) +
          max (stripMarker (stripAnsiCodes raw)).length 100) := by
  subst hst
  subst hsyn
  have hout : (stepLine env State.DiffHunk (some g) raw).out =
      compositeHunkLine env g (stripAnsiCodes raw) := by
    simp [stepLine, h1, h2, h3]
  have hvis : visibleChars (compositeHunkLine env g (stripAnsiCodes raw)) =
      (if hasMarker (stripAnsiCodes raw) then [' '] else []) ++
        padLine (stripMarker (stripAnsiCodes raw)) := by
    unfold compositeHunkLine
    rw [visibleChars_append, visibleChars_paintRanges, hcover]
    congr 1
    by_cases hm : hasMarker (stripAnsiCodes raw) <;>
      simp [hm, visibleChars, Tok.visible]
  have hfirst : visibleChars (stepLine env State.DiffHunk (some g) raw).out =
      (if hasMarker (stripAnsiCodes raw) then [' '] else []) ++
        (stripMarker (stripAnsiCodes raw) ++
          List.replicate (padCount (stripMarker (stripAnsiCodes raw))) ' ') := by
    rw [hout, hvis, padLine_eq]
  have hlen : (visibleChars (stepLine env State.DiffHunk (some g) raw).out).length =
      (if hasMarker (stripAnsiCodes raw) then 1 else 0) +
        (stripMarker (stripAnsiCodes raw)).length +
        padCount (stripMarker (stripAnsiCodes raw)) := by
    rw [hfirst]
    by_cases hm : hasMarker (stripAnsiCodes raw) <;> simp [hm] <;> omega
  refine ⟨hfirst, hlen, ?_⟩
  intro ha
  rw [hlen]
  have hascii := isAsciiLine_utf8Len _ ha
  unfold padCount
  by_cases hlt : utf8Len (stripMarker (stripAnsiCodes raw)) < 100
  · rw [if_pos hlt, Nat.max_eq_right (by omega)]
    omega
  · rw [if_neg hlt, Nat.max_eq_left (by omega)]
    omega

/-- Witness for C1 (amended) at the concrete hunk line `+ab` with a
single-span highlighter: 1 marker space + 2 characters + 98 pad spaces
= 101 visible columns. -/
theorem c1_visible_count_amended_witness :
    (visibleChars (stepLine envId State.DiffHunk (some ())
        "+ab".data).out).length = 101 := by
  have h := (c1_visible_count_amended envId State.DiffHunk (some ()) ()
      "+ab".data rfl rfl (by decide) (by decide) (by decide)
      (by simp [envId, joinTexts])).2.1
  exact h.trans (by decide)

/-- C3 counterexample: for the composited tinted line `+a`, not every
visible character is rendered under the tint background: the space
substituted for the marker is pushed onto the output buffer before any
background escape and is therefore rendered outside the GREEN tint. -/
theorem c3_counterexample :
    tintOf (stripAnsiCodes "+a".data) = some GREEN ∧
    coveredWalk GREEN none
      (stepLine envId State.DiffHunk (some ()) "+a".data).out = false := by
  exact ⟨by decide, by decide⟩

/-- C3 (amended): for a composited hunk line with a tint, the emitted
line is the substituted space followed by the painted spans, and every
visible character of the painted spans is rendered under the tint
background (each span re-emits the background escape before its text
and no reset intervenes); only the single substituted leading space
falls outside the background. -/
theorem c3_tint_coverage_amended {Γ : Type} (env : Env Γ) (st : State)
    (syn : Option Γ) (g : Γ) (raw : List Char) (t : Color)
    (hst : st = State.DiffHunk) (hsyn : syn = some g)
    (h1 : List.isPrefixOf "diff --".data (stripAnsiCodes raw) = false)
    (h2 : List.isPrefixOf "commit".data (stripAnsiCodes raw) = false)
    (h3 : List.isPrefixOf "@@".data (stripAnsiCodes raw) = false)
    (ht : tintOf (stripAnsiCodes raw) = some t) :
    (stepLine env st syn raw).out =
      Tok.txt [' '] ::
        paintRanges (env.highlight g
          (padLine (stripMarker (stripAnsiCodes raw)))) (some t) ∧
    coveredWalk t none
      (paintRanges (env.highlight g
        (padLine (stripMarker (stripAnsiCodes raw)))) (some t)) = true := by
  subst hst
  subst hsyn
  have hmk : hasMarker (stripAnsiCodes raw) = true := by
    unfold tintOf at ht
    unfold hasMarker
    by_cases hp : (stripAnsiCodes raw).head? = some '+'
    · simp [hp]
    · by_cases hm : (stripAnsiCodes raw).head? = some '-'
      · simp [hm]
      · rw [if_neg hp, if_neg hm] at ht
        exact absurd ht (by simp)
  constructor
  · simp [stepLine, h1, h2, h3, compositeHunkLine, hmk, ht]
  · exact coveredWalk_paintRanges t _ none

/-- Witness for C3 (amended) at the concrete tinted line `+a`: all
span text after the substituted space is covered by the GREEN tint. -/
theorem c3_tint_coverage_amended_witness :
    coveredWalk GREEN none
      (paintRanges (envId.highlight ()
        (padLine (stripMarker (stripAnsiCodes "+a".data)))) (some GREEN)) =
      true :=
  (c3_tint_coverage_amended envId State.DiffHunk (some ()) () "+a".data GREEN
    rfl rfl (by decide) (by decide) (by decide) (by decide)).2

/-- Witness for C10 at the concrete lines `+ab` and `abc`. -/
theorem c10_no_panic_witness :
    byteDrop? 1 "+ab".data = some (stripMarker "+ab".data) ∧
    stripMarker "+ab".data = "+ab".data.drop 1 ∧
    (100 - utf8Len "abc".data) + utf8Len "abc".data = 100 ∧
    utf8Len (padLine "abc".data) = 100 :=
  c10_no_panic "+ab".data '+' "abc".data rfl (Or.inl rfl) (by decide)

end Delta
